import Mathlib

/-!
# Verification of the LuminaIQ document-ingestion concurrency pipeline

Shallow embedding of the pipeline code in
`backend/services/document_service.py`, `backend/utils/embedding_queue.py`,
`services/parallel_embedding_processor.py` and
`backend/services/qdrant_service.py`, together with theorems settling the
specification claims about batching, retry/backoff, failure aggregation,
concurrency pools, progress tracking and status queries.
-/

namespace LuminaIQ

/-! ## Substring matching (Python `pat in s`) -/

/-- Python's `pat in hay` on lists of characters: some suffix of `hay`
starts with `pat`. -/
def subListAt (pat hay : List Char) : Bool :=
  (List.range (hay.length + 1)).any (fun i => pat.isPrefixOf (hay.drop i))

/-- Python's `pat in hay` on strings. -/
def strContains (hay pat : String) : Bool :=
  subListAt pat.data hay.data

/-- ASCII lowercasing, as Python `str.lower()` behaves on the ASCII error
messages the pipeline matches against (Lean's `Char.toLower` is ASCII-only). -/
def strLower (s : String) : String :=
  ⟨s.data.map Char.toLower⟩

/-! ## Error classification

`document_service.py` (`process_batch`, both copies) classifies an error
string as retryable when it contains one of these patterns; the parallel
processor (`_process_batch_with_retry`) uses a shorter list. -/

/-- Transient-error patterns of `document_service.process_batch`. -/
def docTransientPatterns : List String :=
  ["429", "too many requests", "timeout", "timed out", "connection",
   "temporary", "unavailable"]

/-- `is_retryable` of `document_service.process_batch`:
`any(x in str(e).lower() for x in [...])`. -/
def isRetryableDoc (msg : String) : Bool :=
  docTransientPatterns.any (fun p => strContains (strLower msg) p)

/-- Transient-error patterns of
`parallel_embedding_processor._process_batch_with_retry`. -/
def parTransientPatterns : List String :=
  ["timeout", "connection", "temporary", "retry"]

/-- Retryable check of `_process_batch_with_retry`:
`any(x in str(e).lower() for x in [...])`. -/
def parTransient (msg : String) : Bool :=
  parTransientPatterns.any (fun p => strContains (strLower msg) p)

/-! ## Batch-attempt outcomes -/

/-- Outcome of one attempt of a batch in `document_service.process_batch`
(the body raises or returns; a raise carries `str(e)`). -/
inductive DocOutcome where
  | success
  | error (msg : String)
deriving DecidableEq

/-- Outcome of one attempt in `_process_batch_with_retry`
(`asyncio.TimeoutError` is caught separately from other exceptions). -/
inductive ParOutcome where
  | success
  | timeoutErr
  | error (msg : String)
deriving DecidableEq

/-- An outcome `document_service.process_batch` will retry. -/
def DocOutcome.retryable : DocOutcome → Prop
  | .success => False
  | .error m => isRetryableDoc m = true

instance : DecidablePred DocOutcome.retryable := fun o => by
  cases o <;> simp [DocOutcome.retryable] <;> infer_instance

/-- An outcome `_process_batch_with_retry` will retry. -/
def ParOutcome.retryable : ParOutcome → Prop
  | .success => False
  | .timeoutErr => True
  | .error m => parTransient m = true

instance : DecidablePred ParOutcome.retryable := fun o => by
  cases o <;> simp [ParOutcome.retryable] <;> infer_instance

/-! ## Retry loop of `document_service.process_batch`

```
retries = 3
for attempt in range(retries):
    try:
        ... embed, upsert ...; completed[0] += 1; return
    except Exception as e:
        is_retryable = any(x in str(e).lower() for x in [...])
        if is_retryable and attempt < retries - 1:
            wait_time = (2**attempt) + (0.1 * (batch_idx % 5))
            await asyncio.sleep(wait_time); continue
        logger.error(...)
        if attempt == retries - 1:
            failed_batches.append(batch_idx); return
```
Note that a non-retryable error at `attempt < retries - 1` falls through
the handler and the loop proceeds to the next attempt without sleeping.
Sleeps are recorded in tenths of a second (`0.1 * k` becomes `k`). -/

/-- Backoff delay of `process_batch` in tenths of a second:
`(2**attempt) + 0.1 * (batch_idx % 5)` seconds. -/
def docWaitTenths (attempt bIdx : Nat) : Nat :=
  10 * 2 ^ attempt + bIdx % 5

/-- Result of running one batch through a retry loop: whether the batch
succeeded, how many attempts were performed, which sleeps (tenths of a
second, in order) happened, and whether the index was appended to
`failed_batches`. -/
structure DocBatchResult where
  success : Bool
  attempts : Nat
  sleepsTenths : List Nat
  recordedFailed : Bool
deriving DecidableEq

/-- The `for attempt in range(retries)` loop of `process_batch`;
`remaining` counts the loop iterations left (initially `retries`),
`attempt` is the current 0-based attempt index, `sleeps` accumulates
performed sleeps in reverse. -/
def docLoopAux (out : Nat → DocOutcome) (bIdx retries : Nat) :
    Nat → Nat → List Nat → DocBatchResult
  | attempt, 0, sleeps => ⟨false, attempt, sleeps.reverse, false⟩
  | attempt, rem + 1, sleeps =>
    match out attempt with
    | .success => ⟨true, attempt + 1, sleeps.reverse, false⟩
    | .error m =>
      if isRetryableDoc m = true ∧ attempt < retries - 1 then
        docLoopAux out bIdx retries (attempt + 1) rem
          (docWaitTenths attempt bIdx :: sleeps)
      else if attempt = retries - 1 then
        ⟨false, attempt + 1, sleeps.reverse, true⟩
      else
        docLoopAux out bIdx retries (attempt + 1) rem sleeps

/-- `document_service.process_batch` (the inner function of
`_process_embeddings_direct` / `_process_embeddings_with_progress`) run on
attempt outcomes `out` for batch index `bIdx`; `retries = 3` is hardcoded
in the source. -/
def docProcessBatch (out : Nat → DocOutcome) (bIdx : Nat) : DocBatchResult :=
  docLoopAux out bIdx 3 0 3 []

/-! ## Retry loop of `_process_batch_with_retry`

```
for attempt in range(self.max_retries + 1):
    try:
        if attempt > 0:
            delay = self.RETRY_BASE_DELAY * (2 ** (attempt - 1))
            await asyncio.sleep(delay)
        await callback(job, batch, batch_idx)
        ...; return True
    except asyncio.TimeoutError: ...      # always retry
    except Exception as e:
        if any(x in str(e).lower() for x in [...]): ...  # retry
        else: break                        # fatal: no further attempt
job.error_message = ...; return False
```
`RETRY_BASE_DELAY = 1.0` second; delays recorded in tenths. -/

/-- Retry delay of `_process_batch_with_retry` in tenths of a second:
`RETRY_BASE_DELAY * 2 ** (attempt - 1)` with base delay 1.0 s. -/
def parDelayTenths (attempt : Nat) : Nat :=
  10 * 2 ^ (attempt - 1)

/-- Result of `_process_batch_with_retry`. -/
structure ParBatchResult where
  success : Bool
  attempts : Nat
  sleepsTenths : List Nat
deriving DecidableEq

/-- The `for attempt in range(max_retries + 1)` loop of
`_process_batch_with_retry`; the batch index does not influence the
delay (it appears only in log lines). -/
def parLoopAux (out : Nat → ParOutcome) (maxRetries : Nat) :
    Nat → Nat → List Nat → ParBatchResult
  | attempt, 0, sleeps => ⟨false, attempt, sleeps.reverse⟩
  | attempt, rem + 1, sleeps =>
    let sleeps' := if 0 < attempt then parDelayTenths attempt :: sleeps else sleeps
    match out attempt with
    | .success => ⟨true, attempt + 1, sleeps'.reverse⟩
    | .timeoutErr => parLoopAux out maxRetries (attempt + 1) rem sleeps'
    | .error m =>
      if parTransient m = true then
        parLoopAux out maxRetries (attempt + 1) rem sleeps'
      else
        ⟨false, attempt + 1, sleeps'.reverse⟩

/-- `_process_batch_with_retry` run on attempt outcomes `out` with the
given `max_retries`, for batch index `bIdx` (unused by the control flow,
kept for fidelity to the signature). -/
def parProcessBatch (out : Nat → ParOutcome) (maxRetries : Nat)
    (_bIdx : Nat) : ParBatchResult :=
  parLoopAux out maxRetries 0 (maxRetries + 1) []

/-! ## The Batcher

`document_service._process_embeddings_direct` / `_with_progress`:
```
batches = []
for i in range(0, len(chunks), self.batch_size):
    batch_data = chunks[i : i + self.batch_size]
    batches.append((i, batch_data))
```
`parallel_embedding_processor._create_batches`:
```
return [chunks[i : i + self.batch_size] for i in range(0, len(chunks), self.batch_size)]
```
-/

/-- The slicing loop: emits `(offset, slice)` pairs while chunks remain.
For `B ≥ 1`, `(x :: t).take B = x :: t.take (B - 1)` and
`(x :: t).drop B = t.drop (B - 1)`, so the recursion walks the list in
strides of `B` exactly like `range(0, len(chunks), B)`. -/
def splitBatchesAux {α : Type} (B : Nat) : List α → Nat → List (Nat × List α)
  | [], _ => []
  | x :: t, off =>
    (off, (x :: t).take B) :: splitBatchesAux B (t.drop (B - 1)) (off + B)
termination_by l _ => l.length
decreasing_by simp only [List.length_drop, List.length_cons]; omega

/-- `document_service` batch construction: ordered `(start_offset, slice)`
pairs. Meaningful for `batch_size ≥ 1` (Python's `range` rejects step 0). -/
def prepareBatches {α : Type} (chunks : List α) (B : Nat) : List (Nat × List α) :=
  splitBatchesAux B chunks 0

/-- `_create_batches` of the parallel processor: the same slices without
the offsets. -/
def createBatches {α : Type} (chunks : List α) (B : Nat) : List (List α) :=
  (prepareBatches chunks B).map Prod.snd

/-! ## Batch metadata and vector-store payloads

`document_service.process_batch` builds, for batch slice `batch_data`
starting at `start_index`,
```
batch_metadata = [{"document_id": document_id, "document_name": filename,
                   "chunk_id": start_index + k} for k in range(len(batch_data))]
```
and `qdrant_service.upsert_chunks` copies `document_id`, `document_name`
and `chunk_id` from each metadata dict into the persisted point payload
(vectors and the random point uuid are irrelevant here and omitted). -/

/-- One entry of `batch_metadata`. -/
structure ChunkMeta where
  document_id : String
  document_name : String
  chunk_id : Nat
deriving DecidableEq

/-- The `batch_metadata` list of `process_batch`. -/
def batchMetadata (docId docName : String) (start : Nat)
    (data : List String) : List ChunkMeta :=
  (List.range data.length).map (fun k => ⟨docId, docName, start + k⟩)

/-- The payload persisted for one chunk by `upsert_chunks`. -/
structure PointPayload where
  text : String
  document_id : String
  document_name : String
  chunk_id : Nat
deriving DecidableEq

/-- Point construction of `upsert_chunks`: zip chunks with their metadata
and copy the fields into the payload. -/
def upsertPoints (chunks : List String) (metas : List ChunkMeta) :
    List PointPayload :=
  (chunks.zip metas).map
    (fun p => ⟨p.1, p.2.document_id, p.2.document_name, p.2.chunk_id⟩)

/-! ## The Concurrency Governor

`embedding_queue.EmbeddingQueue` owns three class-level (hence global,
shared by every job) `asyncio.Semaphore`s:
`_doc_semaphore = Semaphore(MAX_CONCURRENT_DOCUMENTS)` (5),
`_embed_semaphore = Semaphore(MAX_GLOBAL_EMBEDDINGS)` (10),
`_db_semaphore = Semaphore(MAX_GLOBAL_DB_OPERATIONS)` (8).
Every embedding-provider call and every vector-store upsert of the
pipeline sits inside an `async with` block of the corresponding
semaphore, so holders pair each acquire with a release. An
`asyncio.Semaphore(n)` suspends an acquirer while `n` holders are
in flight; we model the in-flight counts of the three pools and the
acquire/release transitions available to the cooperative scheduler. -/

/-- Configured pool capacities. -/
structure PoolCaps where
  maxDocs : Nat
  maxEmbed : Nat
  maxWrite : Nat
deriving DecidableEq

/-- The capacities of `EmbeddingQueue`: `MAX_CONCURRENT_DOCUMENTS = 5`,
`MAX_GLOBAL_EMBEDDINGS = 10`, `MAX_GLOBAL_DB_OPERATIONS = 8`. -/
def queueCaps : PoolCaps := ⟨5, 10, 8⟩

/-- In-flight counts of the three pools. -/
structure PoolState where
  docInFlight : Nat
  embedInFlight : Nat
  writeInFlight : Nat
deriving DecidableEq

/-- Process start: no slot held. -/
def initPools : PoolState := ⟨0, 0, 0⟩

/-- One scheduler step on the semaphores: `acquire` succeeds only when a
slot is free (otherwise the task stays suspended and no step happens);
`release` happens only from a task that holds a slot (the `async with`
discipline). -/
inductive PoolStep (c : PoolCaps) : PoolState → PoolState → Prop where
  | acquireDoc (s : PoolState) : s.docInFlight < c.maxDocs →
      PoolStep c s { s with docInFlight := s.docInFlight + 1 }
  | acquireEmbed (s : PoolState) : s.embedInFlight < c.maxEmbed →
      PoolStep c s { s with embedInFlight := s.embedInFlight + 1 }
  | acquireWrite (s : PoolState) : s.writeInFlight < c.maxWrite →
      PoolStep c s { s with writeInFlight := s.writeInFlight + 1 }
  | releaseDoc (s : PoolState) : 0 < s.docInFlight →
      PoolStep c s { s with docInFlight := s.docInFlight - 1 }
  | releaseEmbed (s : PoolState) : 0 < s.embedInFlight →
      PoolStep c s { s with embedInFlight := s.embedInFlight - 1 }
  | releaseWrite (s : PoolState) : 0 < s.writeInFlight →
      PoolStep c s { s with writeInFlight := s.writeInFlight - 1 }

/-- Pool states reachable during execution, over any interleaving of
jobs and batches. -/
inductive PoolReachable (c : PoolCaps) : PoolState → Prop where
  | init : PoolReachable c initPools
  | step {s t : PoolState} : PoolReachable c s → PoolStep c s t →
      PoolReachable c t

/-! ## Failure aggregation (queue path)

`_process_embeddings_with_progress` runs `process_batch` for every batch,
collecting `failed_batches`, and ends with
```
if failed_batches:
    raise Exception(f"{len(failed_batches)} batches failed")
```
The exception propagates through the `process_job` callback of
`process_chunks_direct` into `EmbeddingQueue._process_job`, which sets
`status = FAILED` and `error_message = str(e)`; without it `_process_job`
sets `status = COMPLETED`, `progress = 100`. -/

/-- `JobStatus` of `embedding_queue.py`. -/
inductive JobStatus where
  | pending
  | processing
  | completed
  | failed
deriving DecidableEq

/-- `JobStatus.value`. -/
def JobStatus.value : JobStatus → String
  | .pending => "pending"
  | .processing => "processing"
  | .completed => "completed"
  | .failed => "failed"

/-- Per-batch success flags of a job whose batch `i` sees attempt
outcomes `outs[i]`: each batch runs `process_batch` with its index. -/
def batchResults (outs : List (Nat → DocOutcome)) : List Bool :=
  outs.enum.map (fun p => (docProcessBatch p.2 p.1).success)

/-- The `failed_batches` list: indices of batches recorded as failed. -/
def failedIndices (results : List Bool) : List Nat :=
  (results.enum.filter (fun p => !p.2)).map Prod.fst

/-- Outcome of `_process_embeddings_with_progress`: raises
`Exception(f"{len(failed_batches)} batches failed")` when any batch
failed, otherwise returns. -/
def embedWithProgressExc (outs : List (Nat → DocOutcome)) :
    Except String Unit :=
  let failed := failedIndices (batchResults outs)
  if failed.isEmpty then .ok ()
  else .error (toString failed.length ++ " batches failed")

/-- The job fields `_process_job` leaves behind once every batch has
resolved (timestamps omitted). `completed_batches` and `progress` hold
the values of the last `update_job_progress` call (no call happens when
no batch succeeds). -/
structure JobFinal where
  status : JobStatus
  progress : Nat
  completed_batches : Nat
  total_batches : Nat
  error_message : Option String
deriving DecidableEq

/-- Final job state of `EmbeddingQueue._process_job` running the
`process_chunks_direct` callback over `_process_embeddings_with_progress`.
`int(x)` on a non-negative quotient is floor, i.e. Nat division. -/
def processJobFinal (outs : List (Nat → DocOutcome)) : JobFinal :=
  let results := batchResults outs
  let succ := (results.filter (fun b => b)).length
  let total := results.length
  match embedWithProgressExc outs with
  | .ok _ => ⟨.completed, 100, succ, total, none⟩
  | .error e => ⟨.failed, succ * 100 / max 1 total, succ, total, some e⟩

/-! ## Failure aggregation (direct path)

`_process_embeddings_direct` runs the same `process_batch` loop but ends
with only a log line:
```
if failed_batches:
    logger.warning(f"... {len(failed_batches)} failed batches ...")
else:
    logger.info(...)
```
No exception is raised for failed batches, so `process_document`
continues and finally calls `_update_document_status(document_id,
"completed")`. -/

/-- `_process_embeddings_direct`: returns the failed indices it logged;
never raises on batch failures. -/
def processEmbeddingsDirect (outs : List (Nat → DocOutcome)) :
    Except String (List Nat) :=
  .ok (failedIndices (batchResults outs))

/-- The `upload_status` that `process_document` writes after the direct
embedding step (given text extraction and chunking succeeded): "failed"
only if an exception propagated out of the embedding step. -/
def processDocumentUploadStatus (outs : List (Nat → DocOutcome)) : String :=
  match processEmbeddingsDirect outs with
  | .ok _ => "completed"
  | .error _ => "failed"

/-! ## Job registry and status queries (`embedding_queue.py`) -/

/-- An `EmbeddingJob` record (chunks and timestamps omitted; none of the
status queries read them). -/
structure EmbeddingJobRec where
  job_id : String
  document_id : String
  project_id : String
  filename : String
  status : JobStatus
  position : Nat
  total_in_queue : Nat
  progress : Nat
  total_batches : Nat
  completed_batches : Nat
  error_message : Option String
deriving DecidableEq

/-- The dict returned by `get_job_status`. -/
structure JobStatusView where
  job_id : String
  document_id : String
  filename : String
  status : String
  position : Nat
  total_in_queue : Nat
  progress : Nat
  completed_batches : Nat
  total_batches : Nat
  error_message : Option String
deriving DecidableEq

/-- The status dict built from a job. -/
def jobStatusView (j : EmbeddingJobRec) : JobStatusView :=
  ⟨j.job_id, j.document_id, j.filename, j.status.value, j.position,
   j.total_in_queue, j.progress, j.completed_batches, j.total_batches,
   j.error_message⟩

/-- `self._jobs` modelled as its values in insertion order (Python dicts
preserve insertion order; `job_id` keys are unique by construction). -/
def getJobStatus (jobs : List EmbeddingJobRec) (jobId : String) :
    Option JobStatusView :=
  (jobs.find? (fun j => j.job_id == jobId)).map jobStatusView

/-- `get_document_status`: scan `self._jobs.values()` in order and
return `get_job_status(job.job_id)` for the first match. -/
def getDocumentStatus (jobs : List EmbeddingJobRec) (documentId : String) :
    Option JobStatusView :=
  match jobs.find? (fun j => j.document_id == documentId) with
  | some j => getJobStatus jobs j.job_id
  | none => none

/-! ## Job registry and status queries (`parallel_embedding_processor.py`) -/

/-- `ProcessingStatus` of the parallel processor. -/
inductive ProcessingStatus where
  | pending
  | processing
  | completed
  | failed
  | retrying
deriving DecidableEq

/-- `ProcessingStatus.value`. -/
def ProcessingStatus.value : ProcessingStatus → String
  | .pending => "pending"
  | .processing => "processing"
  | .completed => "completed"
  | .failed => "failed"
  | .retrying => "retrying"

/-- A `ProcessingJob` record (chunks and timestamps omitted). -/
structure ProcessingJobRec where
  job_id : String
  document_id : String
  project_id : String
  filename : String
  status : ProcessingStatus
  progress : Nat
  total_batches : Nat
  completed_batches : Nat
  retry_count : Nat
  current_batch : Nat
  error_message : Option String
deriving DecidableEq

/-- The dict returned by `ParallelEmbeddingProcessor.get_status`. -/
structure ProcStatusView where
  job_id : String
  document_id : String
  filename : String
  status : String
  progress : Nat
  current_batch : Nat
  completed_batches : Nat
  total_batches : Nat
  retry_count : Nat
  error_message : Option String
deriving DecidableEq

/-- The status dict built from a processing job. -/
def procStatusView (j : ProcessingJobRec) : ProcStatusView :=
  ⟨j.job_id, j.document_id, j.filename, j.status.value, j.progress,
   j.current_batch, j.completed_batches, j.total_batches, j.retry_count,
   j.error_message⟩

/-- `ParallelEmbeddingProcessor.get_status`. -/
def procGetStatus (jobs : List ProcessingJobRec) (jobId : String) :
    Option ProcStatusView :=
  (jobs.find? (fun j => j.job_id == jobId)).map procStatusView

/-- `ParallelEmbeddingProcessor.get_document_status`. -/
def procGetDocumentStatus (jobs : List ProcessingJobRec)
    (documentId : String) : Option ProcStatusView :=
  match jobs.find? (fun j => j.document_id == documentId) with
  | some j => procGetStatus jobs j.job_id
  | none => none

/-! ## Progress tracking

`embedding_queue.update_job_progress`:
```
job.completed_batches = completed_batches
job.total_batches = total_batches
job.progress = int((completed_batches / max(1, total_batches)) * 100)
```
The parallel processor's `_process_batch_with_retry` instead runs, on
each batch success,
```
completed = job.completed_batches + 1
job.progress = int((completed / max(1, job.total_batches)) * 100)
```
`job.completed_batches` itself is written only once, after
`asyncio.gather` in `_process_batches_parallel`:
`job.completed_batches = sum(1 for r in results if r is True)`. -/

/-- The progress-relevant fields of a `ProcessingJob`. -/
structure PJobView where
  completed_batches : Nat
  progress : Nat
  status : ProcessingStatus
deriving DecidableEq

/-- `update_job_progress` of `embedding_queue.py` (also `update_progress`
of the parallel processor, which has the same body). -/
def updateJobProgress (completedBatches totalBatches : Nat) : Nat :=
  completedBatches * 100 / max 1 totalBatches

/-- Effect on the job of one batch resolving in
`_process_batch_with_retry`: a success recomputes `progress` from
`job.completed_batches + 1` without storing the incremented counter; a
failure changes nothing. -/
def parBatchProgressEvent (total : Nat) (v : PJobView) (success : Bool) :
    PJobView :=
  if success then
    { v with progress := (v.completed_batches + 1) * 100 / max 1 total }
  else v

/-- Observable job states during a run of `_process_batches_parallel`
whose batches resolve (in completion order) as `results`: the state
before any batch and after each batch. -/
def parJobStates (total : Nat) (results : List Bool) : List PJobView :=
  results.scanl (parBatchProgressEvent total) ⟨0, 0, .processing⟩

/-- Job state after `_process_batches_parallel` stores the success count
and `_process_document` finalizes the status (`completed` with
`progress = 100` iff every batch succeeded, else `failed`). -/
def parFinalizeJob (total : Nat) (results : List Bool) : PJobView :=
  let s := (results.filter (fun b => b)).length
  let v := { (parJobStates total results).getLastD ⟨0, 0, .processing⟩ with
             completed_batches := s }
  if s = total then { v with status := .completed, progress := 100 }
  else { v with status := .failed }

/-! ## Concrete scenarios and claim statements under test -/

/-- A job of one batch whose every attempt raises a non-retryable
"bad request" error. -/
def c1FailOuts : List (Nat → DocOutcome) := [fun _ => .error "bad request"]

/-- A mixed job: batch 0 succeeds, batch 1 fails fatally on every
attempt. -/
def c1MixedOuts : List (Nat → DocOutcome) :=
  [fun _ => .success, fun _ => .error "bad request"]

/-- The strict-failure policy as claimed, read on the direct path
(`_process_embeddings_direct` inside `process_document`): a job with a
non-empty failed-batch set must not end "completed". -/
def c1DirectClaim : Prop :=
  ∀ outs : List (Nat → DocOutcome),
    failedIndices (batchResults outs) ≠ [] →
    processDocumentUploadStatus outs ≠ "completed"

/-- Attempt outcomes: retryable "timeout" errors on attempts 0, 1 and 2,
success from attempt 3 on. -/
def c4Outcomes : Nat → DocOutcome :=
  fun k => if k < 3 then .error "timeout" else .success

/-- The claimed retry budget for `document_service.process_batch` with
`MAX_RETRIES = 3`: up to 3 additional attempts beyond the first, so a
batch with 3 retryable failures and a success available on the 4th
attempt succeeds. -/
def c4DocClaim : Prop :=
  ∀ (out : Nat → DocOutcome) (bIdx : Nat),
    (∀ k, k < 3 → (out k).retryable) → out 3 = .success →
    (docProcessBatch out bIdx).success = true

/-- Attempt outcomes: a fatal (non-transient) "malformed payload" error
on the first attempt, success afterwards. -/
def c5Outcomes : Nat → DocOutcome :=
  fun k => if k = 0 then .error "malformed payload" else .success

/-- The same attempt outcomes for the parallel processor's loop. -/
def c5ParOutcomes : Nat → ParOutcome :=
  fun k => if k = 0 then .error "malformed payload" else .success

/-- Attempt outcomes: one retryable "timeout" failure, then success. -/
def c8Outcomes : Nat → ParOutcome :=
  fun k => if k = 0 then .error "timeout" else .success

/-- The claimed jitter for `_process_batch_with_retry`: batches whose
indices differ mod 5 sleep different amounts before their retries, so
simultaneous retries are desynchronized. -/
def c8DesyncClaim : Prop :=
  ∀ i j : Nat, i % 5 ≠ j % 5 →
    (parProcessBatch c8Outcomes 3 i).sleepsTenths ≠
      (parProcessBatch c8Outcomes 3 j).sleepsTenths

/-- A registered embedding job (queue implementation). -/
def c9Job : EmbeddingJobRec :=
  ⟨"emb_1_doc1", "doc-1", "proj-1", "a.pdf", .processing, 0, 1, 40, 5, 2,
   none⟩

/-- A registered processing job (parallel implementation). -/
def c9ProcJob : ProcessingJobRec :=
  ⟨"proc_1_doc1", "doc-1", "proj-1", "a.pdf", .processing, 40, 5, 2, 0, 3,
   none⟩

/-- An unrelated job on another document. -/
def c10JobZ : EmbeddingJobRec :=
  ⟨"emb_1_doc3", "doc-3", "proj-1", "z.pdf", .completed, 0, 1, 100, 2, 2,
   none⟩

/-- First job registered for document "doc-7". -/
def c10JobA : EmbeddingJobRec :=
  ⟨"emb_2_doc7", "doc-7", "proj-1", "a.pdf", .completed, 0, 1, 100, 4, 4,
   none⟩

/-- A later re-submission of document "doc-7". -/
def c10JobB : EmbeddingJobRec :=
  ⟨"emb_3_doc7", "doc-7", "proj-1", "a.pdf", .processing, 0, 1, 25, 4, 1,
   none⟩

/-- First processing job registered for document "doc-7". -/
def c10ProcA : ProcessingJobRec :=
  ⟨"proc_2_doc7", "doc-7", "proj-1", "a.pdf", .completed, 100, 4, 4, 0, 4,
   none⟩

/-- A later re-submission of document "doc-7". -/
def c10ProcB : ProcessingJobRec :=
  ⟨"proc_3_doc7", "doc-7", "proj-1", "a.pdf", .processing, 25, 4, 1, 0, 2,
   none⟩

theorem splitBatchesAux_nil {α : Type} (B off : Nat) :
    splitBatchesAux (α := α) B [] off = [] := by
  simp [splitBatchesAux]

theorem splitBatchesAux_cons {α : Type} (B off : Nat) (x : α) (t : List α) :
    splitBatchesAux B (x :: t) off =
      (off, (x :: t).take B) :: splitBatchesAux B (t.drop (B - 1)) (off + B) := by
  rw [splitBatchesAux]

theorem splitBatchesAux_eq_nil_iff {α : Type} (B off : Nat) (l : List α) :
    splitBatchesAux B l off = [] ↔ l = [] := by
  cases l with
  | nil => simp [splitBatchesAux_nil]
  | cons x t => simp [splitBatchesAux_cons]

/-- For `B ≥ 1` the drop in the recursion is `l.drop B`. -/
theorem cons_drop_sub_one {α : Type} {B : Nat} (hB : 1 ≤ B) (x : α) (t : List α) :
    t.drop (B - 1) = (x :: t).drop B := by
  cases B with
  | zero => omega
  | succ b => simp

/-- Concatenating the batch slices in order reproduces the chunk list. -/
theorem splitBatchesAux_join {α : Type} {B : Nat} (hB : 1 ≤ B) :
    ∀ (n : Nat) (l : List α) (off : Nat), l.length ≤ n →
      ((splitBatchesAux B l off).map Prod.snd).flatten = l := by
  intro n
  induction n with
  | zero =>
    intro l off hl
    have : l = [] := List.length_eq_zero.mp (Nat.le_zero.mp hl)
    simp [this, splitBatchesAux_nil]
  | succ n ih =>
    intro l off hl
    cases l with
    | nil => simp [splitBatchesAux_nil]
    | cons x t =>
      rw [splitBatchesAux_cons]
      simp only [List.map_cons, List.flatten_cons]
      rw [cons_drop_sub_one hB x t]
      have hlen : ((x :: t).drop B).length ≤ n := by
        simp only [List.length_drop, List.length_cons] at hl ⊢
        omega
      rw [ih ((x :: t).drop B) (off + B) hlen]
      exact List.take_append_drop B (x :: t)

/-- The number of batches is `⌈N / B⌉ = (N + B - 1) / B`. -/
theorem splitBatchesAux_length {α : Type} {B : Nat} (hB : 1 ≤ B) :
    ∀ (n : Nat) (l : List α) (off : Nat), l.length ≤ n →
      (splitBatchesAux B l off).length = (l.length + B - 1) / B := by
  intro n
  induction n with
  | zero =>
    intro l off hl
    have : l = [] := List.length_eq_zero.mp (Nat.le_zero.mp hl)
    subst this
    simp [splitBatchesAux_nil, Nat.div_eq_of_lt (by omega : B - 1 < B)]
  | succ n ih =>
    intro l off hl
    cases l with
    | nil => simp [splitBatchesAux_nil, Nat.div_eq_of_lt (by omega : B - 1 < B)]
    | cons x t =>
      rw [splitBatchesAux_cons]
      simp only [List.length_cons]
      have hlen : (t.drop (B - 1)).length ≤ n := by
        simp only [List.length_drop, List.length_cons] at hl ⊢
        omega
      rw [ih (t.drop (B - 1)) (off + B) hlen]
      simp only [List.length_drop]
      have hN : t.length + 1 + B - 1 = (t.length + 1 - 1) + B := by omega
      rw [hN, Nat.add_div_right _ (by omega : 0 < B)]
      rcases le_or_lt B (t.length + 1) with hle | hlt
      · have harg2 : t.length - (B - 1) + B - 1 = (t.length + 1 - B - 1) + B ∨
            t.length + 1 = B := by omega
        rcases harg2 with h2 | h2
        · rw [h2, Nat.add_div_right _ (by omega : 0 < B)]
          have : t.length + 1 - 1 = (t.length + 1 - B - 1) + B := by omega
          rw [this, Nat.add_div_right _ (by omega : 0 < B)]
        · have ha : t.length - (B - 1) + B - 1 = B - 1 := by omega
          have hb : t.length + 1 - 1 = B - 1 := by omega
          rw [ha, hb, Nat.div_eq_of_lt (by omega : B - 1 < B)]
      · have ha : t.length - (B - 1) + B - 1 = B - 1 := by omega
        have hb : t.length + 1 - 1 < B := by omega
        rw [ha, Nat.div_eq_of_lt (by omega : B - 1 < B),
          Nat.div_eq_of_lt hb]

/-- Every batch except the last holds exactly `B` chunks. -/
theorem splitBatchesAux_size {α : Type} {B : Nat} (hB : 1 ≤ B) :
    ∀ (n : Nat) (l : List α) (off i : Nat), l.length ≤ n →
      i + 1 < (splitBatchesAux B l off).length →
      ((splitBatchesAux B l off).get? i).map (fun b => b.2.length) = some B := by
  intro n
  induction n with
  | zero =>
    intro l off i hl hi
    have : l = [] := List.length_eq_zero.mp (Nat.le_zero.mp hl)
    subst this
    simp [splitBatchesAux_nil] at hi
  | succ n ih =>
    intro l off i hl hi
    cases l with
    | nil => simp [splitBatchesAux_nil] at hi
    | cons x t =>
      rw [splitBatchesAux_cons] at hi ⊢
      cases i with
      | zero =>
        simp only [List.get?_cons_zero, Option.map_some']
        simp only [List.length_cons] at hi
        have hrest : splitBatchesAux B (t.drop (B - 1)) (off + B) ≠ [] := by
          intro hnil
          rw [hnil] at hi
          simp at hi
        have hdrop : t.drop (B - 1) ≠ [] := by
          intro hnil
          exact hrest (by rw [hnil, splitBatchesAux_nil])
        have hlen : B - 1 < t.length := by
          by_contra hcon
          exact hdrop (List.drop_eq_nil_of_le (by omega))
        simp only [Option.some.injEq]
        rw [List.length_take]
        simp only [List.length_cons]
        omega
      | succ i =>
        simp only [List.get?_cons_succ]
        simp only [List.length_cons, Nat.add_lt_add_iff_right] at hi
        have hlen : (t.drop (B - 1)).length ≤ n := by
          simp only [List.length_drop, List.length_cons] at hl ⊢
          omega
        exact ih (t.drop (B - 1)) (off + B) i hlen (by omega)

/-- Each batch's `start_offset` is the total size of the batches before
it (they are all full, so it is also `i * B`). -/
theorem splitBatchesAux_offset {α : Type} {B : Nat} (hB : 1 ≤ B) :
    ∀ (n : Nat) (l : List α) (off i : Nat), l.length ≤ n →
      i < (splitBatchesAux B l off).length →
      ((splitBatchesAux B l off).get? i).map Prod.fst =
        some (off + (((splitBatchesAux B l off).take i).map
          (fun b => b.2.length)).sum) := by
  intro n
  induction n with
  | zero =>
    intro l off i hl hi
    have : l = [] := List.length_eq_zero.mp (Nat.le_zero.mp hl)
    subst this
    simp [splitBatchesAux_nil] at hi
  | succ n ih =>
    intro l off i hl hi
    cases l with
    | nil => simp [splitBatchesAux_nil] at hi
    | cons x t =>
      rw [splitBatchesAux_cons] at hi ⊢
      cases i with
      | zero => simp
      | succ i =>
        simp only [List.get?_cons_succ, List.take_succ_cons, List.map_cons,
          List.sum_cons]
        simp only [List.length_cons, Nat.add_lt_add_iff_right] at hi
        have hlen : (t.drop (B - 1)).length ≤ n := by
          simp only [List.length_drop, List.length_cons] at hl ⊢
          omega
        rw [ih (t.drop (B - 1)) (off + B) i hlen hi]
        simp only [Option.some.injEq]
        have htake : ((x :: t).take B).length = B := by
          have hrest : t.drop (B - 1) ≠ [] := by
            intro hnil
            rw [hnil, splitBatchesAux_nil] at hi
            simp at hi
          have hlen : B - 1 < t.length := by
            by_contra hcon
            exact hrest (List.drop_eq_nil_of_le (by omega))
          rw [List.length_take]
          simp only [List.length_cons]
          omega
        rw [htake]
        omega

/-- The chunk ids `start_offset + local_index` emitted by the batches, in
batch order, are exactly `off, off + 1, ..., off + N - 1`. -/
theorem splitBatchesAux_chunkIds {α : Type} {B : Nat} (hB : 1 ≤ B) :
    ∀ (n : Nat) (l : List α) (off : Nat), l.length ≤ n →
      ((splitBatchesAux B l off).map
        (fun b => (List.range b.2.length).map (fun k => b.1 + k))).flatten =
        (List.range l.length).map (fun k => off + k) := by
  intro n
  induction n with
  | zero =>
    intro l off hl
    have : l = [] := List.length_eq_zero.mp (Nat.le_zero.mp hl)
    simp [this, splitBatchesAux_nil]
  | succ n ih =>
    intro l off hl
    cases l with
    | nil => simp [splitBatchesAux_nil]
    | cons x t =>
      rw [splitBatchesAux_cons]
      simp only [List.map_cons, List.flatten_cons]
      rw [cons_drop_sub_one hB x t]
      have hlen : ((x :: t).drop B).length ≤ n := by
        simp only [List.length_drop, List.length_cons] at hl ⊢
        omega
      rw [ih ((x :: t).drop B) (off + B) hlen]
      simp only [List.length_take, List.length_drop, List.length_cons]
      rcases le_or_lt (t.length + 1) B with h | h
      · have hmin : min B (t.length + 1) = t.length + 1 := Nat.min_eq_right h
        have hsub : t.length + 1 - B = 0 := Nat.sub_eq_zero_of_le h
        simp [hmin, hsub]
      · have hmin : min B (t.length + 1) = B := Nat.min_eq_left (Nat.le_of_lt h)
        rw [hmin]
        conv_rhs => rw [show t.length + 1 = B + (t.length + 1 - B) by omega]
        rw [List.range_add]
        simp only [List.map_append, List.map_map]
        congr 1
        simp [Function.comp, Nat.add_assoc]

theorem batchMetadata_nil (docId docName : String) (start : Nat) :
    batchMetadata docId docName start [] = [] := rfl

theorem batchMetadata_cons (docId docName : String) (start : Nat)
    (x : String) (xs : List String) :
    batchMetadata docId docName start (x :: xs) =
      ⟨docId, docName, start⟩ :: batchMetadata docId docName (start + 1) xs := by
  simp only [batchMetadata, List.length_cons, List.range_succ_eq_map,
    List.map_cons, List.map_map]
  congr 1
  apply List.map_congr_left
  intro k _
  simp only [Function.comp_apply, ChunkMeta.mk.injEq, Nat.succ_eq_add_one,
    true_and]
  omega

/-- The chunk ids persisted for one batch are
`start, start + 1, ..., start + len - 1`. -/
theorem upsertPoints_chunkIds (docId docName : String) :
    ∀ (data : List String) (start : Nat),
      (upsertPoints data (batchMetadata docId docName start data)).map
        PointPayload.chunk_id = (List.range data.length).map (fun k => start + k) := by
  intro data
  induction data with
  | nil => intro start; rfl
  | cons x xs ih =>
    intro start
    rw [batchMetadata_cons]
    simp only [upsertPoints, List.zip_cons_cons, List.map_cons] at ih ⊢
    rw [List.length_cons, List.range_succ_eq_map, List.map_cons]
    congr 1
    rw [ih (start + 1), List.map_map]
    apply List.map_congr_left
    intro k _
    simp only [Function.comp_apply, Nat.succ_eq_add_one]
    omega

/-! ## Run characterizations of the two retry loops -/

/-- The loop of `_process_batch_with_retry` performs at most
`attempt + remaining` attempts. -/
theorem parLoopAux_attempts_le (out : Nat → ParOutcome) (M : Nat) :
    ∀ (rem attempt : Nat) (sleeps : List Nat),
      (parLoopAux out M attempt rem sleeps).attempts ≤ attempt + rem := by
  intro rem
  induction rem with
  | zero =>
    intro attempt sleeps
    simp [parLoopAux]
  | succ rem ih =>
    intro attempt sleeps
    simp only [parLoopAux]
    cases hout : out attempt with
    | success => simp only; omega
    | timeoutErr =>
      simp only
      have := ih (attempt + 1)
        (if 0 < attempt then parDelayTenths attempt :: sleeps else sleeps)
      omega
    | error m =>
      simp only
      by_cases hp : parTransient m = true
      · rw [if_pos hp]
        have := ih (attempt + 1)
          (if 0 < attempt then parDelayTenths attempt :: sleeps else sleeps)
        omega
      · rw [if_neg hp]
        simp only
        omega

/-- A run of the `_process_batch_with_retry` loop from attempt
`attempt ≥ 1` that sees `r` retryable failures and then a success:
it succeeds at attempt `attempt + r`, having slept
`RETRY_BASE_DELAY * 2^(a-1)` before each attempt `a` it performed. -/
theorem parLoopAux_run_spec (out : Nat → ParOutcome) (M : Nat) :
    ∀ (r attempt rem : Nat) (sleeps : List Nat), 1 ≤ attempt → r < rem →
      (∀ k, k < r → (out (attempt + k)).retryable) →
      out (attempt + r) = .success →
      parLoopAux out M attempt rem sleeps =
        ⟨true, attempt + r + 1,
         sleeps.reverse ++
           (List.range (r + 1)).map (fun k => parDelayTenths (attempt + k))⟩ := by
  intro r
  induction r with
  | zero =>
    intro attempt rem sleeps h1 hrem hf hs
    obtain ⟨rem', rfl⟩ : ∃ rem', rem = rem' + 1 := ⟨rem - 1, by omega⟩
    rw [Nat.add_zero] at hs
    simp only [parLoopAux, hs]
    rw [if_pos (show 0 < attempt from h1)]
    simp [List.range_succ]
  | succ r ih =>
    intro attempt rem sleeps h1 hrem hf hs
    obtain ⟨rem', rfl⟩ : ∃ rem', rem = rem' + 1 := ⟨rem - 1, by omega⟩
    have h0 := hf 0 (by omega)
    rw [Nat.add_zero] at h0
    have hf' : ∀ k, k < r → (out (attempt + 1 + k)).retryable := by
      intro k hk
      have := hf (k + 1) (by omega)
      rwa [show attempt + (k + 1) = attempt + 1 + k by omega] at this
    have hs' : out (attempt + 1 + r) = .success := by
      rwa [show attempt + (r + 1) = attempt + 1 + r by omega] at hs
    have hshift :
        (List.range (r + 1 + 1)).map (fun k => parDelayTenths (attempt + k)) =
        parDelayTenths attempt ::
          (List.range (r + 1)).map (fun k => parDelayTenths (attempt + 1 + k)) := by
      rw [List.range_succ_eq_map, List.map_cons, List.map_map]
      simp only [List.cons.injEq]
      refine ⟨by rw [Nat.add_zero], ?_⟩
      apply List.map_congr_left
      intro k _
      simp only [Function.comp_apply, Nat.succ_eq_add_one]
      congr 1
      omega
    have hlist :
        (parDelayTenths attempt :: sleeps).reverse ++
          (List.range (r + 1)).map (fun k => parDelayTenths (attempt + 1 + k)) =
        sleeps.reverse ++
          (List.range (r + 1 + 1)).map (fun k => parDelayTenths (attempt + k)) := by
      rw [List.reverse_cons, List.append_assoc, List.singleton_append, hshift]
    cases hout : out attempt with
    | success =>
      rw [hout] at h0
      exact absurd h0 (by simp [ParOutcome.retryable])
    | timeoutErr =>
      simp only [parLoopAux, hout]
      rw [if_pos (show 0 < attempt from h1)]
      rw [ih (attempt + 1) rem' (parDelayTenths attempt :: sleeps)
        (by omega) (by omega) hf' hs']
      rw [hlist]
      congr 1
      omega
    | error m =>
      rw [hout] at h0
      have hm : parTransient m = true := h0
      simp only [parLoopAux, hout]
      rw [if_pos (show 0 < attempt from h1)]
      rw [if_pos hm]
      rw [ih (attempt + 1) rem' (parDelayTenths attempt :: sleeps)
        (by omega) (by omega) hf' hs']
      rw [hlist]
      congr 1
      omega

/-- `_process_batch_with_retry`: `r ≤ max_retries` retryable failures
followed by a success give a successful batch after `r + 1` attempts,
with backoff sleeps `base * 2^0, ..., base * 2^(r-1)` (tenths of a
second, base delay 1.0 s) and no dependence on the batch index. -/
theorem parProcessBatch_run_spec (out : Nat → ParOutcome) (M r bIdx : Nat)
    (hr : r ≤ M) (hf : ∀ k, k < r → (out k).retryable)
    (hs : out r = .success) :
    parProcessBatch out M bIdx =
      ⟨true, r + 1, (List.range r).map (fun k => 10 * 2 ^ k)⟩ := by
  unfold parProcessBatch
  cases r with
  | zero =>
    simp only [parLoopAux, hs]
    simp
  | succ r' =>
    have h0 := hf 0 (by omega)
    have hf' : ∀ k, k < r' → (out (1 + k)).retryable := by
      intro k hk
      have := hf (k + 1) (by omega)
      rwa [show k + 1 = 1 + k by omega] at this
    have hs' : out (1 + r') = .success := by
      rwa [show r' + 1 = 1 + r' by omega] at hs
    have hrec := parLoopAux_run_spec out M r' 1 M []
      (by omega) (by omega) hf' hs'
    cases hout : out 0 with
    | success =>
      rw [hout] at h0
      exact absurd h0 (by simp [ParOutcome.retryable])
    | timeoutErr =>
      simp only [parLoopAux, hout]
      rw [if_neg (by omega : ¬ (0 : Nat) < 0)]
      rw [hrec]
      simp only [List.reverse_nil, List.nil_append, ParBatchResult.mk.injEq]
      refine ⟨trivial, by omega, ?_⟩
      apply List.map_congr_left
      intro k _
      simp [parDelayTenths]
    | error m =>
      rw [hout] at h0
      have hm : parTransient m = true := h0
      simp only [parLoopAux, hout]
      rw [if_neg (by omega : ¬ (0 : Nat) < 0)]
      rw [if_pos hm]
      rw [hrec]
      simp only [List.reverse_nil, List.nil_append, ParBatchResult.mk.injEq]
      refine ⟨trivial, by omega, ?_⟩
      apply List.map_congr_left
      intro k _
      simp [parDelayTenths]

/-- The loop of `document_service.process_batch` performs at most
`attempt + remaining` attempts. -/
theorem docLoopAux_attempts_le (out : Nat → DocOutcome) (bIdx retries : Nat) :
    ∀ (rem attempt : Nat) (sleeps : List Nat),
      (docLoopAux out bIdx retries attempt rem sleeps).attempts ≤
        attempt + rem := by
  intro rem
  induction rem with
  | zero =>
    intro attempt sleeps
    simp [docLoopAux]
  | succ rem ih =>
    intro attempt sleeps
    simp only [docLoopAux]
    cases hout : out attempt with
    | success => simp only; omega
    | error m =>
      simp only
      by_cases hc : isRetryableDoc m = true ∧ attempt < retries - 1
      · rw [if_pos hc]
        have := ih (attempt + 1) (docWaitTenths attempt bIdx :: sleeps)
        omega
      · rw [if_neg hc]
        by_cases he : attempt = retries - 1
        · rw [if_pos he]
          simp only
          omega
        · rw [if_neg he]
          have := ih (attempt + 1) sleeps
          omega

/-- `document_service.process_batch`: `r` retryable failures followed by
a success within the 3-attempt budget (`r ≤ 2`) give a successful batch
after `r + 1` attempts, sleeping `2^a + 0.1 * (batch_idx % 5)` seconds
before retry `a + 1`. -/
theorem docProcessBatch_run_spec (out : Nat → DocOutcome) (bIdx r : Nat)
    (hr : r ≤ 2) (hf : ∀ k, k < r → (out k).retryable)
    (hs : out r = .success) :
    docProcessBatch out bIdx =
      ⟨true, r + 1, (List.range r).map (fun a => docWaitTenths a bIdx),
       false⟩ := by
  interval_cases r
  · simp [docProcessBatch, docLoopAux, hs]
  · have h0 := hf 0 (by omega)
    cases h0out : out 0 with
    | success =>
      rw [h0out] at h0
      exact absurd h0 (by simp [DocOutcome.retryable])
    | error m =>
      rw [h0out] at h0
      have hm : isRetryableDoc m = true := h0
      simp [docProcessBatch, docLoopAux, h0out, hm, hs, List.range_succ]
  · have h0 := hf 0 (by omega)
    have h1 := hf 1 (by omega)
    cases h0out : out 0 with
    | success =>
      rw [h0out] at h0
      exact absurd h0 (by simp [DocOutcome.retryable])
    | error m0 =>
      rw [h0out] at h0
      have hm0 : isRetryableDoc m0 = true := h0
      cases h1out : out 1 with
      | success =>
        rw [h1out] at h1
        exact absurd h1 (by simp [DocOutcome.retryable])
      | error m1 =>
        rw [h1out] at h1
        have hm1 : isRetryableDoc m1 = true := h1
        simp [docProcessBatch, docLoopAux, h0out, hm0, h1out, hm1, hs,
          List.range_succ]

/-! ## Registry lookup helpers -/

/-- `find?` skips a block in which the predicate never holds. -/
theorem find?_append_of_none {α : Type} (p : α → Bool) :
    ∀ (pre rest : List α), (∀ x ∈ pre, p x = false) →
      (pre ++ rest).find? p = rest.find? p := by
  intro pre
  induction pre with
  | nil => intro rest _; rfl
  | cons a t ih =>
    intro rest h
    have ha : p a = false := h a (by simp)
    simp only [List.cons_append, List.find?, ha]
    exact ih rest (fun x hx => h x (by simp [hx]))

/-- `find?` returns the head when the predicate holds there. -/
theorem find?_cons_of_true {α : Type} (p : α → Bool) (a : α) (l : List α)
    (ha : p a = true) : (a :: l).find? p = some a := by
  simp only [List.find?, ha]

/-! ## The claims -/

/-- C1 (counterexample): in the direct path
(`_process_embeddings_direct` called from `process_document`), a job
whose only batch fails on every attempt still ends with upload status
"completed" — failed batches are only logged, never raised, so the
claimed "Failed iff failed_batch_indices non-empty" policy does not hold
there. -/
theorem c1_counterexample :
    failedIndices (batchResults c1FailOuts) = [0] ∧ ¬ c1DirectClaim := by
  refine ⟨by decide, ?_⟩
  intro h
  exact h c1FailOuts (by decide) rfl

/-- C1 (amended): on the queue path (`EmbeddingQueue._process_job`
running `_process_embeddings_with_progress`), once every batch has
resolved the job's status is Completed iff the failed-batch set is
empty; otherwise it is Failed and `error_message` summarizes the number
of failed batches (the indices themselves are not stored on the job).
The direct path (`_process_embeddings_direct`) instead tolerates failed
batches without failing the document. -/
theorem c1_queue_strict_aggregation (outs : List (Nat → DocOutcome)) :
    ((processJobFinal outs).status = .completed ↔
      failedIndices (batchResults outs) = []) ∧
    (failedIndices (batchResults outs) ≠ [] →
      (processJobFinal outs).status = .failed ∧
      (processJobFinal outs).error_message =
        some (toString (failedIndices (batchResults outs)).length ++
          " batches failed")) := by
  by_cases h : (failedIndices (batchResults outs)).isEmpty
  · have hnil : failedIndices (batchResults outs) = [] :=
      List.isEmpty_iff.mp h
    simp [processJobFinal, embedWithProgressExc, h, hnil]
  · have hne : failedIndices (batchResults outs) ≠ [] := by
      intro hnil
      exact h (List.isEmpty_iff.mpr hnil)
    have hfalse : (failedIndices (batchResults outs)).isEmpty = false :=
      Bool.eq_false_iff.mpr h
    constructor
    · simp [processJobFinal, embedWithProgressExc, hfalse, hne]
    · intro _
      simp [processJobFinal, embedWithProgressExc, hfalse]

/-- C1 (witness): a two-batch job whose second batch fails is Failed
with the count in `error_message`. -/
theorem c1_queue_strict_aggregation_witness :
    ((processJobFinal c1MixedOuts).status = .completed ↔
      failedIndices (batchResults c1MixedOuts) = []) ∧
    (processJobFinal c1MixedOuts).status = .failed ∧
    (processJobFinal c1MixedOuts).error_message =
      some "1 batches failed" := by
  have h := c1_queue_strict_aggregation c1MixedOuts
  have h2 := h.2 (by decide)
  exact ⟨h.1, h2.1, by rw [h2.2]; rfl⟩

/-- C2: for `batch_size ≥ 1` the batcher produces `⌈N / B⌉` batches;
concatenating the slices in order reproduces the chunk list; every batch
except possibly the last has exactly `B` chunks; and each batch's
`start_offset` equals the total size of all earlier batches. -/
theorem c2_batcher_split_correct {α : Type} (chunks : List α) (B : Nat)
    (hB : 1 ≤ B) :
    (prepareBatches chunks B).length = (chunks.length + B - 1) / B ∧
    (createBatches chunks B).flatten = chunks ∧
    (∀ i, i + 1 < (prepareBatches chunks B).length →
      ((prepareBatches chunks B).get? i).map (fun b => b.2.length) =
        some B) ∧
    (∀ i, i < (prepareBatches chunks B).length →
      ((prepareBatches chunks B).get? i).map Prod.fst =
        some ((((prepareBatches chunks B).take i).map
          (fun b => b.2.length)).sum)) := by
  refine ⟨?_, ?_, ?_, ?_⟩
  · exact splitBatchesAux_length hB chunks.length chunks 0 le_rfl
  · exact splitBatchesAux_join hB chunks.length chunks 0 le_rfl
  · intro i hi
    exact splitBatchesAux_size hB chunks.length chunks 0 i le_rfl hi
  · intro i hi
    have := splitBatchesAux_offset hB chunks.length chunks 0 i le_rfl hi
    simpa using this

/-- C2 (witness): 5 chunks with `batch_size = 2` give `⌈5/2⌉ = 3`
batches which concatenate back to the chunk list. -/
theorem c2_batcher_split_correct_witness :
    1 ≤ 2 ∧ (prepareBatches ["a", "b", "c", "d", "e"] 2).length =
      (5 + 2 - 1) / 2 ∧
    (createBatches ["a", "b", "c", "d", "e"] 2).flatten =
      ["a", "b", "c", "d", "e"] :=
  ⟨by decide,
   (c2_batcher_split_correct ["a", "b", "c", "d", "e"] 2 (by decide)).1,
   (c2_batcher_split_correct ["a", "b", "c", "d", "e"] 2 (by decide)).2.1⟩

/-- C3: in every reachable pool state, the in-flight count of each of
the three global pools (document admission, embedding calls, vector
writes) is at most its configured capacity; in particular concurrent
in-flight embedding calls across all jobs never exceed the embed-pool
capacity. -/
theorem c3_pool_capacity_invariant (c : PoolCaps) (s : PoolState)
    (h : PoolReachable c s) :
    s.docInFlight ≤ c.maxDocs ∧ s.embedInFlight ≤ c.maxEmbed ∧
      s.writeInFlight ≤ c.maxWrite := by
  induction h with
  | init => simp [initPools]
  | step _ hstep ih =>
    cases hstep <;> simp_all <;> omega

/-- C3 (witness): the state after acquiring one document slot and one
embedding slot is reachable under the queue's capacities and within
bounds. -/
theorem c3_pool_capacity_invariant_witness :
    (⟨1, 1, 0⟩ : PoolState).docInFlight ≤ queueCaps.maxDocs ∧
    (⟨1, 1, 0⟩ : PoolState).embedInFlight ≤ queueCaps.maxEmbed ∧
    (⟨1, 1, 0⟩ : PoolState).writeInFlight ≤ queueCaps.maxWrite :=
  c3_pool_capacity_invariant queueCaps ⟨1, 1, 0⟩
    (PoolReachable.step
      (PoolReachable.step PoolReachable.init
        (PoolStep.acquireDoc initPools (by decide)))
      (PoolStep.acquireEmbed ⟨1, 0, 0⟩ (by decide)))

/-- C4 (counterexample): `document_service.process_batch` runs
`for attempt in range(3)`, i.e. at most 2 retries after the first
attempt; a batch with retryable failures on attempts 0–2 and a success
available on attempt 3 is recorded failed, contradicting "up to
MAX_RETRIES (3) additional attempts beyond the first". -/
theorem c4_counterexample :
    (∀ k, k < 3 → (c4Outcomes k).retryable) ∧
    c4Outcomes 3 = .success ∧
    (docProcessBatch c4Outcomes 0).success = false ∧
    (docProcessBatch c4Outcomes 0).attempts = 3 ∧
    ¬ c4DocClaim := by
  refine ⟨by decide, by decide, by decide, by decide, ?_⟩
  intro h
  have hclaim := h c4Outcomes 0 (by decide) (by decide)
  have heval : (docProcessBatch c4Outcomes 0).success = false := by decide
  rw [heval] at hclaim
  exact Bool.false_ne_true hclaim

/-- C4 (amended): the parallel processor's executor performs up to
`max_retries` additional attempts beyond the first (at most
`max_retries + 1` in total), and `r ≤ max_retries` retryable failures
followed by a success yield a successful batch after `r + 1` attempts;
`document_service.process_batch` instead performs at most 3 attempts in
total (2 additional), and `r ≤ 2` retryable failures followed by a
success yield a successful batch after `r + 1` attempts. -/
theorem c4_retry_budget :
    (∀ (out : Nat → ParOutcome) (M r bIdx : Nat), r ≤ M →
      (∀ k, k < r → (out k).retryable) → out r = .success →
      (parProcessBatch out M bIdx).success = true ∧
      (parProcessBatch out M bIdx).attempts = r + 1) ∧
    (∀ (out : Nat → ParOutcome) (M bIdx : Nat),
      (parProcessBatch out M bIdx).attempts ≤ M + 1) ∧
    (∀ (out : Nat → DocOutcome) (bIdx r : Nat), r ≤ 2 →
      (∀ k, k < r → (out k).retryable) → out r = .success →
      (docProcessBatch out bIdx).success = true ∧
      (docProcessBatch out bIdx).attempts = r + 1) ∧
    (∀ (out : Nat → DocOutcome) (bIdx : Nat),
      (docProcessBatch out bIdx).attempts ≤ 3) := by
  refine ⟨?_, ?_, ?_, ?_⟩
  · intro out M r bIdx hr hf hs
    rw [parProcessBatch_run_spec out M r bIdx hr hf hs]
    exact ⟨rfl, rfl⟩
  · intro out M bIdx
    have := parLoopAux_attempts_le out M (M + 1) 0 []
    simpa [parProcessBatch] using this
  · intro out bIdx r hr hf hs
    rw [docProcessBatch_run_spec out bIdx r hr hf hs]
    exact ⟨rfl, rfl⟩
  · intro out bIdx
    have := docLoopAux_attempts_le out bIdx 3 3 0 []
    simpa [docProcessBatch] using this

/-- C4 (witness): 3 timeouts then success succeeds in 4 attempts on the
parallel processor; 2 retryable errors then success succeeds in 3
attempts in `document_service`. -/
theorem c4_retry_budget_witness :
    (parProcessBatch (fun k => if k < 3 then .timeoutErr else .success)
      3 0).success = true ∧
    (parProcessBatch (fun k => if k < 3 then .timeoutErr else .success)
      3 0).attempts = 4 ∧
    (docProcessBatch (fun k => if k < 2 then .error "timeout" else .success)
      0).success = true ∧
    (docProcessBatch (fun k => if k < 2 then .error "timeout" else .success)
      0).attempts = 3 := by
  have hp := c4_retry_budget.1
    (fun k => if k < 3 then ParOutcome.timeoutErr else .success) 3 3 0
    (by decide) (by decide) (by decide)
  have hd := c4_retry_budget.2.2.1
    (fun k => if k < 2 then DocOutcome.error "timeout" else .success) 0 2
    (by decide) (by decide) (by decide)
  exact ⟨hp.1, hp.2, hd.1, hd.2⟩

/-- C5: "malformed payload" matches no transient pattern, yet
`document_service.process_batch` does not stop after its first attempt:
the handler falls through (no `break`/`return` for a non-final fatal
attempt), the error is silently retried, and here the batch even
succeeds on attempt 2. The parallel processor's loop, by contrast,
`break`s and records the batch failed after exactly one attempt. -/
theorem c5_fatal_error_retried_in_document_service :
    isRetryableDoc "malformed payload" = false ∧
    docProcessBatch c5Outcomes 0 = ⟨true, 2, [], false⟩ ∧
    parProcessBatch c5ParOutcomes 3 0 = ⟨false, 1, []⟩ := by
  exact ⟨by decide, by decide, by decide⟩

/-- C6: for every batch, each persisted payload's `chunk_id` is
`start_offset + local_index`, and across all batches of a job of `N`
chunks the persisted chunk ids, in batch order, are exactly
`0, ..., N - 1`. -/
theorem c6_chunk_ids_are_range (chunks : List String) (B : Nat)
    (docId docName : String) (hB : 1 ≤ B) :
    (∀ b ∈ prepareBatches chunks B,
      (upsertPoints b.2 (batchMetadata docId docName b.1 b.2)).map
        PointPayload.chunk_id =
        (List.range b.2.length).map (fun k => b.1 + k)) ∧
    ((prepareBatches chunks B).map (fun b =>
      (upsertPoints b.2 (batchMetadata docId docName b.1 b.2)).map
        PointPayload.chunk_id)).flatten = List.range chunks.length := by
  constructor
  · intro b _
    exact upsertPoints_chunkIds docId docName b.2 b.1
  · have hmap : (prepareBatches chunks B).map (fun b =>
        (upsertPoints b.2 (batchMetadata docId docName b.1 b.2)).map
          PointPayload.chunk_id) =
        (prepareBatches chunks B).map (fun b =>
          (List.range b.2.length).map (fun k => b.1 + k)) := by
      apply List.map_congr_left
      intro b _
      exact upsertPoints_chunkIds docId docName b.2 b.1
    rw [hmap]
    have := splitBatchesAux_chunkIds hB chunks.length chunks 0 le_rfl
    simpa using this

/-- C6 (witness): 5 chunks in batches of 2 persist chunk ids
`0, 1, 2, 3, 4`. -/
theorem c6_chunk_ids_are_range_witness :
    1 ≤ 2 ∧
    ((prepareBatches ["a", "b", "c", "d", "e"] 2).map (fun b =>
      (upsertPoints b.2 (batchMetadata "doc-1" "f.pdf" b.1 b.2)).map
        PointPayload.chunk_id)).flatten = List.range 5 :=
  ⟨by decide,
   (c6_chunk_ids_are_range ["a", "b", "c", "d", "e"] 2 "doc-1" "f.pdf"
     (by decide)).2⟩

/-- C7: evaluation of the parallel processor's progress tracking on a
3-batch job whose batches resolve success, success, failure. Mid-run,
after two successes, the job shows `completed_batches = 0` with
`progress = 33` (the success handler derives progress from
`completed_batches + 1` without ever storing the increment), and the
terminal state shows `completed_batches = 2` with `progress = 33`,
whereas the claimed derived value `floor(2 / 3 * 100)` — as
`update_job_progress` would compute it — is 66. -/
theorem c7_parallel_progress_divergence :
    (parJobStates 3 [true, true, false]).get? 2 =
      some ⟨0, 33, .processing⟩ ∧
    parFinalizeJob 3 [true, true, false] = ⟨2, 33, .failed⟩ ∧
    (parFinalizeJob 3 [true, true, false]).progress ≠
      (parFinalizeJob 3 [true, true, false]).completed_batches * 100 / 3 ∧
    updateJobProgress 2 3 = 66 := by
  exact ⟨by decide, by decide, by decide, by decide⟩

/-- C8 (counterexample): the parallel processor's retry delay is
`RETRY_BASE_DELAY * 2^(attempt-1)` with no jitter term: batches 0 and 1
(different mod 5) sleep identically before their retry, so retries are
not desynchronized by a per-batch offset. -/
theorem c8_counterexample :
    (parProcessBatch c8Outcomes 3 0).sleepsTenths = [10] ∧
    ¬ c8DesyncClaim := by
  refine ⟨by decide, ?_⟩
  intro h
  exact h 0 1 (by decide) rfl

/-- C8 (amended): in `document_service.process_batch` a run with `r`
retryable failures sleeps `2^a + 0.1 * (batch_idx mod 5)` seconds before
retry `a + 1` (the claimed formula with base delay 1 s and the per-batch
jitter); in `_process_batch_with_retry` the same run sleeps
`1.0 * 2^a` seconds with no jitter (delays in tenths of a second). -/
theorem c8_backoff_formula :
    (∀ (out : Nat → DocOutcome) (bIdx r : Nat), r ≤ 2 →
      (∀ k, k < r → (out k).retryable) → out r = .success →
      (docProcessBatch out bIdx).sleepsTenths =
        (List.range r).map (fun a => 10 * 2 ^ a + bIdx % 5)) ∧
    (∀ (out : Nat → ParOutcome) (M r bIdx : Nat), r ≤ M →
      (∀ k, k < r → (out k).retryable) → out r = .success →
      (parProcessBatch out M bIdx).sleepsTenths =
        (List.range r).map (fun a => 10 * 2 ^ a)) := by
  constructor
  · intro out bIdx r hr hf hs
    rw [docProcessBatch_run_spec out bIdx r hr hf hs]
    rfl
  · intro out M r bIdx hr hf hs
    rw [parProcessBatch_run_spec out M r bIdx hr hf hs]

/-- C8 (witness): batch index 7 sleeps 1.2 s then 2.2 s in
`document_service` (jitter `0.1 * (7 mod 5) = 0.2`), but 1.0 s then
2.0 s in the parallel processor. -/
theorem c8_backoff_formula_witness :
    (docProcessBatch (fun k => if k < 2 then .error "timeout" else .success)
      7).sleepsTenths = [12, 22] ∧
    (parProcessBatch (fun k => if k < 2 then .timeoutErr else .success)
      3 7).sleepsTenths = [10, 20] := by
  have hd := c8_backoff_formula.1
    (fun k => if k < 2 then DocOutcome.error "timeout" else .success) 7 2
    (by decide) (by decide) (by decide)
  have hp := c8_backoff_formula.2
    (fun k => if k < 2 then ParOutcome.timeoutErr else .success) 3 2 7
    (by decide) (by decide) (by decide)
  rw [hd, hp]
  exact ⟨by decide, by decide⟩

/-- C9: a status query for an unknown job id returns None in both
implementations, and a document-status query for a document with no
registered job returns None in both implementations. -/
theorem c9_missing_job_returns_none :
    (∀ (jobs : List EmbeddingJobRec) (jobId : String),
      (∀ j ∈ jobs, j.job_id ≠ jobId) → getJobStatus jobs jobId = none) ∧
    (∀ (jobs : List EmbeddingJobRec) (documentId : String),
      (∀ j ∈ jobs, j.document_id ≠ documentId) →
        getDocumentStatus jobs documentId = none) ∧
    (∀ (jobs : List ProcessingJobRec) (jobId : String),
      (∀ j ∈ jobs, j.job_id ≠ jobId) → procGetStatus jobs jobId = none) ∧
    (∀ (jobs : List ProcessingJobRec) (documentId : String),
      (∀ j ∈ jobs, j.document_id ≠ documentId) →
        procGetDocumentStatus jobs documentId = none) := by
  refine ⟨?_, ?_, ?_, ?_⟩
  · intro jobs jid h
    have hfind : jobs.find? (fun j => j.job_id == jid) = none := by
      rw [List.find?_eq_none]
      intro j hj
      simp only [beq_iff_eq]
      exact h j hj
    unfold getJobStatus
    rw [hfind]
    rfl
  · intro jobs d h
    have hfind : jobs.find? (fun j => j.document_id == d) = none := by
      rw [List.find?_eq_none]
      intro j hj
      simp only [beq_iff_eq]
      exact h j hj
    unfold getDocumentStatus
    rw [hfind]
  · intro jobs jid h
    have hfind : jobs.find? (fun j => j.job_id == jid) = none := by
      rw [List.find?_eq_none]
      intro j hj
      simp only [beq_iff_eq]
      exact h j hj
    unfold procGetStatus
    rw [hfind]
    rfl
  · intro jobs d h
    have hfind : jobs.find? (fun j => j.document_id == d) = none := by
      rw [List.find?_eq_none]
      intro j hj
      simp only [beq_iff_eq]
      exact h j hj
    unfold procGetDocumentStatus
    rw [hfind]

/-- C9 (witness): queries for an unknown job id and an unregistered
document id on singleton registries return None. -/
theorem c9_missing_job_returns_none_witness :
    getJobStatus [c9Job] "emb_2_zzz" = none ∧
    getDocumentStatus [c9Job] "doc-9" = none ∧
    procGetStatus [c9ProcJob] "proc_9_zzz" = none ∧
    procGetDocumentStatus [c9ProcJob] "doc-9" = none :=
  ⟨c9_missing_job_returns_none.1 [c9Job] "emb_2_zzz" (by decide),
   c9_missing_job_returns_none.2.1 [c9Job] "doc-9" (by decide),
   c9_missing_job_returns_none.2.2.1 [c9ProcJob] "proc_9_zzz" (by decide),
   c9_missing_job_returns_none.2.2.2 [c9ProcJob] "doc-9" (by decide)⟩

/-- C10: when several registered jobs share a `document_id`,
`get_document_status` returns the status of the earliest-registered
matching job (first in the registry's insertion order), in both
implementations. -/
theorem c10_document_status_earliest_job :
    (∀ (pre post : List EmbeddingJobRec) (j : EmbeddingJobRec)
        (d : String),
      j.document_id = d → (∀ p ∈ pre, p.document_id ≠ d) →
      (∀ p ∈ pre, p.job_id ≠ j.job_id) →
      getDocumentStatus (pre ++ j :: post) d = some (jobStatusView j)) ∧
    (∀ (pre post : List ProcessingJobRec) (j : ProcessingJobRec)
        (d : String),
      j.document_id = d → (∀ p ∈ pre, p.document_id ≠ d) →
      (∀ p ∈ pre, p.job_id ≠ j.job_id) →
      procGetDocumentStatus (pre ++ j :: post) d =
        some (procStatusView j)) := by
  constructor
  · intro pre post j d hj hdoc hjid
    unfold getDocumentStatus
    have h1 : (pre ++ j :: post).find? (fun x => x.document_id == d) =
        some j := by
      rw [find?_append_of_none _ pre (j :: post)
        (fun x hx => beq_eq_false_iff_ne.mpr (hdoc x hx))]
      exact find?_cons_of_true _ j post (by simp [hj])
    rw [h1]
    show getJobStatus (pre ++ j :: post) j.job_id = some (jobStatusView j)
    unfold getJobStatus
    have h2 : (pre ++ j :: post).find? (fun x => x.job_id == j.job_id) =
        some j := by
      rw [find?_append_of_none _ pre (j :: post)
        (fun x hx => beq_eq_false_iff_ne.mpr (hjid x hx))]
      exact find?_cons_of_true _ j post (by simp)
    rw [h2]
    rfl
  · intro pre post j d hj hdoc hjid
    unfold procGetDocumentStatus
    have h1 : (pre ++ j :: post).find? (fun x => x.document_id == d) =
        some j := by
      rw [find?_append_of_none _ pre (j :: post)
        (fun x hx => beq_eq_false_iff_ne.mpr (hdoc x hx))]
      exact find?_cons_of_true _ j post (by simp [hj])
    rw [h1]
    show procGetStatus (pre ++ j :: post) j.job_id = some (procStatusView j)
    unfold procGetStatus
    have h2 : (pre ++ j :: post).find? (fun x => x.job_id == j.job_id) =
        some j := by
      rw [find?_append_of_none _ pre (j :: post)
        (fun x hx => beq_eq_false_iff_ne.mpr (hjid x hx))]
      exact find?_cons_of_true _ j post (by simp)
    rw [h2]
    rfl

/-- C10 (witness): with two jobs registered for "doc-7" (and one
unrelated job first), `get_document_status` returns the status of the
earlier "doc-7" job, not the re-submission. -/
theorem c10_document_status_earliest_job_witness :
    getDocumentStatus [c10JobZ, c10JobA, c10JobB] "doc-7" =
      some (jobStatusView c10JobA) ∧
    procGetDocumentStatus [c10ProcA, c10ProcB] "doc-7" =
      some (procStatusView c10ProcA) :=
  ⟨c10_document_status_earliest_job.1 [c10JobZ] [c10JobB] c10JobA "doc-7"
     (by decide) (by decide) (by decide),
   c10_document_status_earliest_job.2 [] [c10ProcB] c10ProcA "doc-7"
     (by decide) (by decide) (by decide)⟩

end LuminaIQ

